import Mathlib

/-!
Verification development for the medflow vision extraction services.

The development shallowly embeds the Python sources of
`services/vision-brain` (extraction orchestrator, GPU client retry logic,
preprocessing pipeline control flow) and `services/vision-service`
(legacy parser) as executable Lean definitions and proves the frozen
specification claims about them.

Modelling conventions:
* Python `str` values that are scanned character by character are
  modelled as `List Char` (abbreviated `Str`); byte strings as `List Nat`.
* The three regular expressions used by `try_parse_json`
  (the think-block stripper, the code-fence search and the
  brace-substring search) are modelled as recursive scanners whose
  behaviour was derived from leftmost-match / lazy-greedy backtracking
  semantics of the concrete patterns.
* `json.loads` is modelled by an executable recursive-descent parser for
  standard JSON (fuel-bounded for the nested cases).  Numeric literal
  values are represented as exact rationals; every use in the claims
  either drops non-string values or only tests object-hood, so IEEE
  rounding of Python floats is irrelevant here.  The nonstandard
  NaN/Infinity extension of Python's loader is not modelled; no claim
  depends on it.
* Whitespace sets are the ASCII ones actually exercised by the spec and
  tests: JSON whitespace is space/tab/newline/carriage-return, and the
  Python `str.strip` / regex `\s` set additionally has form-feed and
  vertical tab.
-/

set_option maxRecDepth 4000

abbrev Str := List Char

/-- Backtick character, written via its code point. -/
def backtickChar : Char := Char.ofNat 96

/-- JSON whitespace as used by `json.loads` (space, tab, LF, CR). -/
def jIsWs (c : Char) : Bool :=
  c = ' ' || c = '\t' || c = '\n' || c = '\r'

/-- Whitespace for Python `str.strip` and the regex class `\s`
(ASCII subset: space, tab, LF, CR, VT, FF). -/
def isSpacePy (c : Char) : Bool :=
  c = ' ' || c = '\t' || c = '\n' || c = '\r' || c = '\x0b' || c = '\x0c'

/-- Drop JSON whitespace from the front. -/
def jdropWs (s : Str) : Str := s.dropWhile jIsWs

/-- Model of Python `str.strip()`: remove leading and trailing whitespace. -/
def pyStrip (s : Str) : Str :=
  ((s.dropWhile isSpacePy).reverse.dropWhile isSpacePy).reverse

/-- Find the first occurrence of `pat` in `s`; on success return the part
before the occurrence and the part after it. -/
def splitFirst (pat : Str) : Str → Option (Str × Str)
  | [] => if pat.isPrefixOf ([] : Str) then some ([], []) else none
  | c :: t =>
    if pat.isPrefixOf (c :: t) then some ([], (c :: t).drop pat.length)
    else (splitFirst pat t).map (fun p => (c :: p.1, p.2))

/-- Opening marker of a Qwen3-VL reasoning block. -/
def thinkOpen : Str := ['<', 't', 'h', 'i', 'n', 'k', '>']

/-- Closing marker of a Qwen3-VL reasoning block. -/
def thinkClose : Str := ['<', '/', 't', 'h', 'i', 'n', 'k', '>']

/-- Work loop for the think-block stripper.  One step removes the leftmost
reasoning block (a non-greedy match pairs each opening marker with the
nearest following closing marker, exactly as the DOTALL regex does) and
continues after it; if either marker is missing there is no match and the
input is returned unchanged.  The fuel is always sufficient because each
step removes at least the two markers. -/
def stripThinkGo : Nat → Str → Str
  | 0, s => s
  | fuel + 1, s =>
    match splitFirst thinkOpen s with
    | none => s
    | some (pre, rest) =>
      match splitFirst thinkClose rest with
      | none => s
      | some (_, tail) => pre ++ stripThinkGo fuel tail

/-- Model of `re.sub(r"<think>.*?</think>", "", raw, flags=re.DOTALL)`. -/
def strip_think (s : Str) : Str := stripThinkGo s.length s

/-- The literal triple-backtick fence delimiter. -/
def fencePat : Str := [backtickChar, backtickChar, backtickChar]

/-- The optional fence language tag. -/
def jsonTag : Str := ['j', 's', 'o', 'n']

/-- Remove one trailing newline, as the greedy trailing group of the fence
pattern does. -/
def stripTrailNl (pre : Str) : Str :=
  if pre.getLast? = some '\n' then pre.dropLast else pre

/-- Attempt to match the fence regex anchored at the start of `s`,
returning the captured group on success.  The pattern is
triple-backtick, optional tag `json`, greedy whitespace run, optional
newline, lazy capture, optional newline, triple-backtick (DOTALL).  With
leftmost/backtracking semantics this reduces to: after the opening
delimiter and tag, skip the maximal whitespace run, then capture up to
the first closing delimiter, dropping one newline directly before it. -/
def matchFenceAt (s : Str) : Option Str :=
  if fencePat.isPrefixOf s then
    let t := s.drop 3
    let t1 := if jsonTag.isPrefixOf t then t.drop 4 else t
    let u := t1.dropWhile isSpacePy
    match splitFirst fencePat u with
    | none => none
    | some (pre, _) => some (stripTrailNl pre)
  else none

/-- Model of searching the fence regex: try each start position from the
left, returning the first successful capture. -/
def searchFence : Str → Option Str
  | [] => none
  | c :: t =>
    match matchFenceAt (c :: t) with
    | some g => some g
    | none => searchFence t

/-- Character is neither an opening nor a closing curly brace. -/
def nonBrace (c : Char) : Bool := !(c = '\x7b' || c = '\x7d')

/-- Model of searching the first non-nested brace-delimited substring
(the pattern: opening brace, any run of non-brace characters, closing
brace).  A match attempt at an opening brace greedily takes the run of
non-brace characters and succeeds exactly when the next brace character
is a closing one; otherwise the search advances, which skips only
positions that cannot start a match. -/
def searchBrace : Str → Option Str
  | [] => none
  | c :: t =>
    if c = '\x7b' then
      match t.dropWhile nonBrace with
      | d :: _ =>
        if d = '\x7d' then some ('\x7b' :: t.takeWhile nonBrace ++ ['\x7d'])
        else searchBrace t
      | [] => searchBrace t
    else searchBrace t

/-- JSON values as produced by `json.loads`.  Objects keep their key
insertion order, matching Python dict semantics. -/
inductive Json where
  | null : Json
  | bool (b : Bool) : Json
  | num (q : ℚ) : Json
  | str (s : Str) : Json
  | arr (elems : List Json) : Json
  | obj (pairs : List (Str × Json)) : Json

/-- Discriminator: is this JSON value an array? -/
def Json.isArr : Json → Bool
  | Json.arr _ => true
  | _ => false

/-- Python dict insertion: a repeated key keeps its original position and
takes the latest value; a fresh key is appended. -/
def insertPair (acc : List (Str × Json)) (k : Str) (v : Json) :
    List (Str × Json) :=
  if acc.any (fun p => p.1 == k) then
    acc.map (fun p => if p.1 == k then (p.1, v) else p)
  else acc ++ [(k, v)]

/-- Hex digit value. -/
def hexVal (c : Char) : Option Nat :=
  if '0' ≤ c ∧ c ≤ '9' then some (c.toNat - 48)
  else if 'a' ≤ c ∧ c ≤ 'f' then some (c.toNat - 87)
  else if 'A' ≤ c ∧ c ≤ 'F' then some (c.toNat - 55)
  else none

/-- Decimal digits to a natural number. -/
def digitsToNat (ds : Str) : Nat :=
  ds.foldl (fun a c => 10 * a + (c.toNat - 48)) 0

/-- Parse the body of a JSON string literal (opening quote already
consumed), handling the escape sequences of the strict decoder; raw
control characters are rejected as in strict mode. -/
def parseStringBody : Str → Str → Option (Str × Str)
  | [], _ => none
  | c :: t, acc =>
    if c = '"' then some (acc.reverse, t)
    else if c = '\\' then
      match t with
      | [] => none
      | e :: t2 =>
        if e = '"' then parseStringBody t2 ('"' :: acc)
        else if e = '\\' then parseStringBody t2 ('\\' :: acc)
        else if e = '/' then parseStringBody t2 ('/' :: acc)
        else if e = 'b' then parseStringBody t2 ('\x08' :: acc)
        else if e = 'f' then parseStringBody t2 ('\x0c' :: acc)
        else if e = 'n' then parseStringBody t2 ('\n' :: acc)
        else if e = 'r' then parseStringBody t2 ('\r' :: acc)
        else if e = 't' then parseStringBody t2 ('\t' :: acc)
        else if e = 'u' then
          match t2 with
          | h1 :: h2 :: h3 :: h4 :: t3 =>
            match hexVal h1, hexVal h2, hexVal h3, hexVal h4 with
            | some a, some b, some c3, some d =>
              let code := ((a * 16 + b) * 16 + c3) * 16 + d
              if code.isValidChar then parseStringBody t3 (Char.ofNat code :: acc)
              else none
            | _, _, _, _ => none
          | _ => none
        else none
    else if c.toNat < 32 then none
    else parseStringBody t (c :: acc)

/-- Parse a JSON number literal per the grammar
sign, integer part, optional fraction, optional exponent; the optional
groups are skipped (not consumed) when incomplete, as the number regex
of the decoder does. -/
def parseNumber (s : Str) : Option (Json × Str) :=
  let signed := match s with
    | '-' :: t => (true, t)
    | _ => (false, s)
  match signed.2 with
  | [] => none
  | c :: t =>
    if c = '0' ∨ c.isDigit ∧ c ≠ '0' then
      let intDigits := if c = '0' then [c] else signed.2.takeWhile Char.isDigit
      let r1 := if c = '0' then t else signed.2.dropWhile Char.isDigit
      let fracStep : Nat × Nat × Str := match r1 with
        | '.' :: t2 =>
          let fds := t2.takeWhile Char.isDigit
          if fds = [] then (0, 0, r1)
          else (digitsToNat fds, fds.length, t2.dropWhile Char.isDigit)
        | _ => (0, 0, r1)
      let r2 := fracStep.2.2
      let expStep : Int × Str := match r2 with
        | e :: t3 =>
          if e = 'e' ∨ e = 'E' then
            let esigned : Bool × Str := match t3 with
              | '-' :: t4 => (true, t4)
              | '+' :: t4 => (false, t4)
              | _ => (false, t3)
            let eds := esigned.2.takeWhile Char.isDigit
            if eds = [] then (0, r2)
            else
              let ev : Int := digitsToNat eds
              (if esigned.1 then -ev else ev, esigned.2.dropWhile Char.isDigit)
          else (0, r2)
        | [] => (0, r2)
      let mantissa : ℚ :=
        (digitsToNat intDigits : ℚ) + (fracStep.1 : ℚ) / (10 : ℚ) ^ fracStep.2.1
      let value : ℚ :=
        (if signed.1 then -mantissa else mantissa) * (10 : ℚ) ^ expStep.1
      some (Json.num value, expStep.2)
    else none

/-- The literal tokens of JSON. -/
def trueLit : Str := ['t', 'r', 'u', 'e']

def falseLit : Str := ['f', 'a', 'l', 's', 'e']

def nullLit : Str := ['n', 'u', 'l', 'l']

mutual

/-- Parse one JSON value at the start of `s` (leading whitespace already
skipped), returning it with the unconsumed remainder. -/
def parseVal : Nat → Str → Option (Json × Str)
  | 0, _ => none
  | fuel + 1, s =>
    match s with
    | [] => none
    | c :: t =>
      if c = '"' then (parseStringBody t []).map (fun r => (Json.str r.1, r.2))
      else if c = '\x7b' then parseMembers fuel (jdropWs t) [] true
      else if c = '[' then parseElems fuel (jdropWs t) [] true
      else if trueLit.isPrefixOf s then some (Json.bool true, s.drop 4)
      else if falseLit.isPrefixOf s then some (Json.bool false, s.drop 5)
      else if nullLit.isPrefixOf s then some (Json.null, s.drop 4)
      else parseNumber s

/-- Parse object members.  `first` is true only directly after the opening
brace, where an empty object may close; a trailing comma is rejected. -/
def parseMembers : Nat → Str → List (Str × Json) → Bool →
    Option (Json × Str)
  | 0, _, _, _ => none
  | fuel + 1, s, acc, first =>
    match s with
    | [] => none
    | c :: t =>
      if c = '\x7d' then
        if first then some (Json.obj acc, t) else none
      else if c = '"' then
        match parseStringBody t [] with
        | none => none
        | some (k, r1) =>
          match jdropWs r1 with
          | ':' :: r2 =>
            match parseVal fuel (jdropWs r2) with
            | none => none
            | some (v, r3) =>
              match jdropWs r3 with
              | ',' :: r4 => parseMembers fuel (jdropWs r4) (insertPair acc k v) false
              | '\x7d' :: r4 => some (Json.obj (insertPair acc k v), r4)
              | _ => none
          | _ => none
      else none

/-- Parse array elements; an empty array may close only directly after the
opening bracket, and a trailing comma is rejected. -/
def parseElems : Nat → Str → List Json → Bool → Option (Json × Str)
  | 0, _, _, _ => none
  | fuel + 1, s, acc, first =>
    match s with
    | ']' :: t => if first then some (Json.arr acc.reverse, t) else none
    | _ =>
      match parseVal fuel s with
      | none => none
      | some (v, r1) =>
        match jdropWs r1 with
        | ',' :: r2 => parseElems fuel (jdropWs r2) (v :: acc) false
        | ']' :: r2 => some (Json.arr (v :: acc).reverse, r2)
        | _ => none

end

/-- Model of `json.loads`: skip leading whitespace, parse one value,
require only whitespace to remain.  The fuel bound exceeds the call depth
reachable on the input, since every nested parser call consumes input. -/
def json_loads (s : Str) : Option Json :=
  match parseVal (2 * s.length + 8) (jdropWs s) with
  | some (v, rest) => if jdropWs rest = [] then some v else none
  | none => none

/-- Model of `try_parse_json` in `services/vision-brain/extraction.py`:
empty input short-circuits to none; otherwise strip reasoning blocks and
surrounding whitespace, then try the strategies in order — direct parse,
fenced code block, first brace-delimited substring — accepting a result
only when it is a JSON object (Python dict), whose key/value pairs are
returned. -/
def try_parse_json_brain (raw : Str) : Option (List (Str × Json)) :=
  if raw = [] then none
  else
    let cleaned := pyStrip (strip_think raw)
    match json_loads cleaned with
    | some (Json.obj ps) => some ps
    | _ =>
      let viaFence :=
        match searchFence cleaned with
        | some g =>
          match json_loads (pyStrip g) with
          | some (Json.obj ps) => some ps
          | _ => none
        | none => none
      match viaFence with
      | some ps => some ps
      | none =>
        match searchBrace cleaned with
        | some m =>
          match json_loads m with
          | some (Json.obj ps) => some ps
          | _ => none
        | none => none

/-- Model of `try_parse_json` in `services/vision-service/extraction.py`:
same strategy chain but with no reasoning-block stripping and no empty
check; the direct parse runs on the stripped text while the fence and
brace searches run on the raw text. -/
def try_parse_json_service (raw : Str) : Option (List (Str × Json)) :=
  match json_loads (pyStrip raw) with
  | some (Json.obj ps) => some ps
  | _ =>
    let viaFence :=
      match searchFence raw with
      | some g =>
        match json_loads (pyStrip g) with
        | some (Json.obj ps) => some ps
        | _ => none
      | none => none
    match viaFence with
    | some ps => some ps
    | none =>
      match searchBrace raw with
      | some m =>
        match json_loads m with
        | some (Json.obj ps) => some ps
        | _ => none
      | none => none

/-- Pydantic model `ExtractionField` (models.py).  Confidence values are
represented as exact rationals; the code only ever assigns the two
literals 0.75 and 0.85, both exactly representable. -/
structure ExtractionField where
  key : String
  value : String
  confidence : ℚ
  source : String
deriving DecidableEq

/-- Pydantic model `ExtractionResponse` (models.py). -/
structure ExtractionResponse where
  document_type : String
  fields : List ExtractionField
  warnings : List String
  processing_time_ms : Nat
deriving DecidableEq

def BASE_CONFIDENCE : ℚ := 75 / 100

def BOOSTED_CONFIDENCE : ℚ := 85 / 100

/-- Known field keys per document type (vision-brain `EXPECTED_KEYS`). -/
def EXPECTED_KEYS : List (String × List String) :=
  [("personalausweis",
    ["first_name", "last_name", "date_of_birth", "birth_place",
     "gender", "nationality", "document_number", "expiry_date",
     "street", "house_number", "postal_code", "city",
     "document_type"]),
   ("reisepass",
    ["first_name", "last_name", "date_of_birth", "birth_place",
     "gender", "nationality", "document_number", "expiry_date",
     "document_type"]),
   ("fuehrerschein",
    ["first_name", "last_name", "date_of_birth",
     "document_number", "expiry_date", "license_classes",
     "document_type"])]

/-- Dictionary lookup `EXPECTED_KEYS.get(doc_type, set())`. -/
def expected_keys_get (doc_type : String) : List String :=
  ((EXPECTED_KEYS.find? (fun p => p.1 == doc_type)).map (fun p => p.2)).getD []

/-- The field-building loop of `parse_json_from_response`: iterate the
parsed pairs in order, skip non-string or blank values, trim kept values,
boost confidence for expected keys, tag the source with the document
type, appending each built field. -/
def fieldsOfParsed (ps : List (Str × Json)) (doc_type : String) :
    List ExtractionField :=
  ps.foldl (fun fields kv =>
    match kv.2 with
    | Json.str s =>
      if pyStrip s = [] then fields
      else
        fields ++ [⟨String.mk kv.1, String.mk (pyStrip s),
          if String.mk kv.1 ∈ expected_keys_get doc_type then BOOSTED_CONFIDENCE
          else BASE_CONFIDENCE, doc_type⟩]
    | _ => fields) []

/-- Per-pair field rule as the spec states it for `buildFields`: skip if
the value is not a string or is empty/whitespace after trimming;
otherwise trim the value, boost confidence for expected keys, and tag
the source with the document type. -/
def buildFieldRule (doc_type : String) (kv : Str × Json) :
    Option ExtractionField :=
  match kv.2 with
  | Json.str s =>
    if pyStrip s = [] then none
    else some ⟨String.mk kv.1, String.mk (pyStrip s),
      if String.mk kv.1 ∈ expected_keys_get doc_type then BOOSTED_CONFIDENCE
      else BASE_CONFIDENCE, doc_type⟩
  | _ => none

/-- Model of `parse_json_from_response` (vision-brain). -/
def parse_json_from_response (raw : Str) (doc_type : String) :
    List ExtractionField :=
  match try_parse_json_brain raw with
  | none => []
  | some ps => fieldsOfParsed ps doc_type

/-- Outcome of one `_send_infer` call against the GPU service. -/
inductive SendResult where
  | ok (text : Str) (ms : Nat) : SendResult
  | unavail (detail : String) : SendResult
  | err (detail : String) : SendResult

/-- The two error kinds of the GPU client: `GPUServiceUnavailable`
(retryable) and `GPUServiceError` (non-retryable). -/
inductive GPUError where
  | unavailable (msg : String) : GPUError
  | backendError (msg : String) : GPUError
deriving DecidableEq

/-- Attempt loop of `_infer_with_retry` under tenacity semantics:
`backend k` is the outcome of the k-th call; success and the permanent
error return at once, the transient-unavailable outcome retries while
attempts remain and reraises the final attempt's error when exhausted
(`stop_after_attempt`, `retry_if_exception_type(GPUServiceUnavailable)`,
`reraise=True`).  Returns the result together with the number of calls
made. -/
def inferAttempts (backend : Nat → SendResult) (k : Nat) :
    Nat → Except GPUError (Str × Nat) × Nat
  | 0 =>
    match backend k with
    | SendResult.ok t ms => (Except.ok (t, ms), k)
    | SendResult.err d => (Except.error (GPUError.backendError d), k)
    | SendResult.unavail m => (Except.error (GPUError.unavailable m), k)
  | fuel + 1 =>
    match backend k with
    | SendResult.ok t ms => (Except.ok (t, ms), k)
    | SendResult.err d => (Except.error (GPUError.backendError d), k)
    | SendResult.unavail _ => inferAttempts backend (k + 1) fuel

/-- Model of `GPUClient._infer_with_retry` configured with
`stop_after_attempt attempts`; even a zero/one configuration makes one
call, as tenacity checks its stop condition only after an attempt. -/
def infer_with_retry (attempts : Nat) (backend : Nat → SendResult) :
    Except GPUError (Str × Nat) × Nat :=
  inferAttempts backend 1 (attempts - 1)

/-- Per-request observable side effects of the orchestrator: how many
times the image was preprocessed and how many GPU calls went out. -/
structure PipelineTrace where
  preprocess_runs : Nat
  gpu_calls : Nat
deriving DecidableEq

/-- Registered prompts (prompts.py).  The literal prompt text is static
configuration data out of the core's scope; only the key set and the
distinctness of the values matter here, so the text is abbreviated. -/
def PROMPTS : List (String × String) :=
  [("personalausweis", "PROMPT_PERSONALAUSWEIS"),
   ("reisepass", "PROMPT_REISEPASS"),
   ("fuehrerschein", "PROMPT_FUEHRERSCHEIN")]

/-- Dictionary lookup `PROMPTS.get(doc_type)`. -/
def prompts_get (doc_type : String) : Option String :=
  (PROMPTS.find? (fun p => p.1 == doc_type)).map (fun p => p.2)

/-- Model of `extract_from_image` (vision-brain/extraction.py).  The
preprocessing function and the backend are parameters; `elapsedMs`
stands for the wall-clock time measured on the paths that reach the
backend.  Returns the response together with the pipeline trace. -/
def extract_from_image (preprocessFn : List Nat → List Nat)
    (backend : List Nat → String → Nat → SendResult) (attempts : Nat)
    (elapsedMs : Nat) (image_bytes : List Nat) (doc_type : String) :
    ExtractionResponse × PipelineTrace :=
  match prompts_get doc_type with
  | none =>
    (⟨doc_type, [],
      ["No prompt defined for document type: " ++ doc_type], 0⟩, ⟨0, 0⟩)
  | some prompt =>
    let preprocessed := preprocessFn image_bytes
    match infer_with_retry attempts (backend preprocessed prompt) with
    | (Except.error (GPUError.unavailable m), calls) =>
      (⟨doc_type, [], ["GPU inference service unavailable: " ++ m],
        elapsedMs⟩, ⟨1, calls⟩)
    | (Except.error (GPUError.backendError m), calls) =>
      (⟨doc_type, [], ["GPU inference failed: " ++ m], elapsedMs⟩,
        ⟨1, calls⟩)
    | (Except.ok (raw, _ms), calls) =>
      let fields := parse_json_from_response raw doc_type
      let warnings :=
        if fields.isEmpty then
          ["Could not extract any fields from the image. " ++
           "The image may be unclear or the document type may not match."]
        else []
      (⟨doc_type, fields, warnings, elapsedMs⟩, ⟨1, calls⟩)

/-- The computer-vision primitives consumed by `preprocess`
(preprocessing.py), abstracted over the pixel type.  The stage and
encode operations may fail with `none`, modelling an exception raised
inside the library call that the per-stage try/except of the source
catches, falling back to the pre-stage image.  The decode primitive is
different: `_decode` has no exception handler anywhere on its path, so
besides returning an image or returning no image (`cv2.imdecode`'s
`None` on an undecodable non-empty buffer) it may also raise
(`Except.error`, as `cv2.imdecode` does when its `CV_Assert` trips on
the empty buffer), and that exception escapes `preprocess`. -/
structure CVPrims (Img : Type) where
  decode : List Nat → Except String (Option Img)
  crop_raw : Img → Option Img
  deskew_raw : Img → Option Img
  clahe_raw : Img → Option Img
  resize_raw : Img → Option Img
  encode_raw : Img → Option (List Nat)

/-- One fail-open stage: run the raw operation, fall back to the input
image on failure (the per-stage try/except of the source). -/
def stageRun {Img : Type} (f : Img → Option Img) (img : Img) : Img :=
  (f img).getD img

/-- Control flow of `preprocess` (preprocessing.py): decode, four
fail-open stages in order, encode with the original bytes as fallback.
A decode returning no image short-circuits to the original bytes, but a
decode that raises propagates to the caller — the source wraps
`_decode` in no try/except. -/
def preprocess {Img : Type} (p : CVPrims Img) (image_bytes : List Nat) :
    Except String (List Nat) :=
  match p.decode image_bytes with
  | Except.error e => Except.error e
  | Except.ok none => Except.ok image_bytes
  | Except.ok (some img) =>
    let i1 := stageRun p.crop_raw img
    let i2 := stageRun p.deskew_raw i1
    let i3 := stageRun p.clahe_raw i2
    let i4 := stageRun p.resize_raw i3
    match p.encode_raw i4 with
    | some out => Except.ok out
    | none => Except.ok image_bytes

/-- Decode primitive with the documented `cv2.imdecode` failure modes:
the empty buffer trips the assertion `!buf.empty()` and raises
`cv2.error`; a non-empty undecodable buffer returns no image.  The
remaining primitives are irrelevant to the decode path and left
trivial. -/
def cv2LikePrims : CVPrims Unit :=
  ⟨fun b =>
    if b = [] then Except.error "cv2.error: !buf.empty() in imdecode_"
    else Except.ok none,
   fun _ => none, fun _ => none, fun _ => none, fun _ => none,
   fun _ => none⟩

def TARGET_PORTRAIT : Nat × Nat := (768, 1024)

def TARGET_LANDSCAPE : Nat × Nat := (1024, 768)

/-- Distance of two naturals, the integer value of Python `abs(w - t)`. -/
def absDiff (a b : Nat) : Nat := (a - b) + (b - a)

/-- Dimension-level model of `_resize` (preprocessing.py): choose the
target preset by orientation, skip when both dimensions are within 10%
of it.  The float test `abs(w - t) / t < 0.1` on integer inputs is
equivalent to the exact rational test `10 * |w - t| < t` (the quotient
is a dyadic rational, and no integer distance falls between 0.1 and the
nearest float to it). -/
def resize_dims (w h : Nat) : Nat × Nat :=
  let is_landscape := h < w
  let target := if is_landscape then TARGET_LANDSCAPE else TARGET_PORTRAIT
  if 10 * absDiff w target.1 < target.1 ∧ 10 * absDiff h target.2 < target.2 then
    (w, h)
  else target

/-- Image dimensions (width, height) as used by the crop-stage model. -/
structure ImageDims where
  w : Nat
  h : Nat
deriving DecidableEq

/-- A contour candidate as it reaches the quadrilateral check of
`_crop_document`: the vertex count of the approximated polygon, the
contour area, and the four edge lengths of the ordered quadrilateral
(real-valued norms, represented as exact rationals). -/
structure QuadCand where
  numPoints : Nat
  area : ℚ
  widthA : ℚ
  widthB : ℚ
  heightA : ℚ
  heightB : ℚ

/-- Dimension-level model of `_perspective_transform`: destination
rectangle dimensions are the truncated maxima of opposing edge lengths;
the transform is rejected when either is below 100 pixels. -/
def perspective_transform_dims (c : QuadCand) : Option ImageDims :=
  let max_width := (max c.widthA c.widthB).floor.toNat
  let max_height := (max c.heightA c.heightB).floor.toNat
  if max_width < 100 ∨ max_height < 100 then none
  else some ⟨max_width, max_height⟩

/-- Candidate loop of `_crop_document`: accept the first 4-point
candidate covering at least 20% of the image whose perspective transform
is not rejected; otherwise pass the image through. -/
def cropGo (img : ImageDims) : List QuadCand → ImageDims
  | [] => img
  | c :: rest =>
    if c.numPoints = 4 then
      if c.area / ((img.h : ℚ) * (img.w : ℚ)) < 1 / 5 then cropGo img rest
      else
        match perspective_transform_dims c with
        | none => cropGo img rest
        | some d => d
    else cropGo img rest

/-- Stable insertion into a list sorted by descending area. -/
def insertAreaDesc (c : QuadCand) : List QuadCand → List QuadCand
  | [] => [c]
  | x :: xs => if x.area < c.area then c :: x :: xs else x :: insertAreaDesc c xs

/-- Stable sort by descending contour area
(`sorted(contours, key=cv2.contourArea, reverse=True)`). -/
def sortAreaDesc : List QuadCand → List QuadCand
  | [] => []
  | c :: rest => insertAreaDesc c (sortAreaDesc rest)

/-- Dimension-level model of `_crop_document`: sort candidates by
descending area and inspect at most the five largest. -/
def crop_document (img : ImageDims) (cands : List QuadCand) : ImageDims :=
  cropGo img ((sortAreaDesc cands).take 5)

theorem splitFirst_some_decomp (pat : Str) :
    ∀ s pre rest, splitFirst pat s = some (pre, rest) →
      s = pre ++ pat ++ rest := by
  intro s
  induction s with
  | nil =>
    intro pre rest h
    cases pat with
    | nil =>
      simp only [splitFirst, List.isPrefixOf, if_pos, Option.some.injEq,
        Prod.mk.injEq] at h
      obtain ⟨h1, h2⟩ := h
      subst h1
      subst h2
      rfl
    | cons p ps => simp [splitFirst, List.isPrefixOf] at h
  | cons c t ih =>
    intro pre rest h
    by_cases hp : pat.isPrefixOf (c :: t)
    · rw [splitFirst, if_pos hp] at h
      obtain ⟨u, hu⟩ := List.isPrefixOf_iff_prefix.mp hp
      simp only [Option.some.injEq, Prod.mk.injEq] at h
      obtain ⟨h1, h2⟩ := h
      subst h1
      rw [← hu, List.drop_left] at h2
      rw [← hu, h2]
      simp
    · rw [splitFirst, if_neg hp] at h
      cases hsp : splitFirst pat t with
      | none => rw [hsp] at h; simp at h
      | some p =>
        rw [hsp] at h
        obtain ⟨a, b⟩ := p
        simp only [Option.map_some', Option.some.injEq, Prod.mk.injEq] at h
        obtain ⟨h1, h2⟩ := h
        subst h1
        subst h2
        simp [ih a b hsp]

theorem splitFirst_eq_none (pat s : Str)
    (h : ∀ a b : Str, s ≠ a ++ pat ++ b) : splitFirst pat s = none := by
  cases hs : splitFirst pat s with
  | none => rfl
  | some p => exact absurd (splitFirst_some_decomp pat s p.1 p.2 (by rw [hs])) (h p.1 p.2)

theorem strip_think_eq_self (s : Str) (h : splitFirst thinkOpen s = none) :
    strip_think s = s := by
  cases s with
  | nil => rfl
  | cons c t => simp [strip_think, stripThinkGo, h]

theorem inferAttempts_calls_le (backend : Nat → SendResult) :
    ∀ fuel k, (inferAttempts backend k fuel).2 ≤ k + fuel := by
  intro fuel
  induction fuel with
  | zero => intro k; rw [inferAttempts]; cases h : backend k <;> simp
  | succ fuel ih =>
    intro k
    rw [inferAttempts]
    cases h : backend k with
    | ok t ms => simp
    | err d => simp
    | unavail m =>
      simp only
      have := ih (k + 1)
      omega

theorem inferAttempts_earlier_unavail (backend : Nat → SendResult) :
    ∀ fuel k j, k ≤ j → j < (inferAttempts backend k fuel).2 →
      ∃ s, backend j = SendResult.unavail s := by
  intro fuel
  induction fuel with
  | zero =>
    intro k j hkj hj
    rw [inferAttempts] at hj
    cases h : backend k <;> rw [h] at hj <;> simp at hj <;> omega
  | succ fuel ih =>
    intro k j hkj hj
    rw [inferAttempts] at hj
    cases h : backend k with
    | ok t ms => rw [h] at hj; simp at hj; omega
    | err d => rw [h] at hj; simp at hj; omega
    | unavail m =>
      rw [h] at hj
      simp only at hj
      rcases Nat.eq_or_lt_of_le hkj with heq | hlt
      · exact ⟨m, heq ▸ h⟩
      · exact ih (k + 1) j hlt hj

theorem inferAttempts_all_unavail (backend : Nat → SendResult)
    (m : Nat → String) (hm : ∀ i, backend i = SendResult.unavail (m i)) :
    ∀ fuel k, inferAttempts backend k fuel =
      (Except.error (GPUError.unavailable (m (k + fuel))), k + fuel) := by
  intro fuel
  induction fuel with
  | zero => intro k; simp [inferAttempts, hm k]
  | succ fuel ih =>
    intro k
    rw [inferAttempts, hm k]
    show inferAttempts backend (k + 1) fuel =
      (Except.error (GPUError.unavailable (m (k + (fuel + 1)))), k + (fuel + 1))
    rw [ih (k + 1), show k + 1 + fuel = k + (fuel + 1) from by omega]

/-- Claim C2: only the transient-unavailable error kind triggers a retry,
up to the configured attempt count; with 3 configured attempts and a
backend that is transient-unavailable on every attempt, exactly 3 calls
are made and the final attempt's unavailable error is raised to the
caller; a permanent backend error is raised immediately after exactly one
call. -/
theorem gpu_retry_policy (backend : Nat → SendResult) (m : Nat → String)
    (d : String) :
    ((∀ k, backend k = SendResult.unavail (m k)) →
      infer_with_retry 3 backend =
        (Except.error (GPUError.unavailable (m 3)), 3))
    ∧ (backend 1 = SendResult.err d → ∀ attempts,
        infer_with_retry attempts backend =
          (Except.error (GPUError.backendError d), 1))
    ∧ (∀ attempts, (infer_with_retry attempts backend).2 ≤ max attempts 1)
    ∧ (∀ attempts j, 1 ≤ j → j < (infer_with_retry attempts backend).2 →
        ∃ s, backend j = SendResult.unavail s) := by
  refine ⟨?_, ?_, ?_, ?_⟩
  · intro hm
    rw [infer_with_retry, inferAttempts_all_unavail backend m hm]
  · intro h attempts
    rw [infer_with_retry]
    cases attempts - 1 with
    | zero => simp [inferAttempts, h]
    | succ fuel => simp [inferAttempts, h]
  · intro attempts
    have := inferAttempts_calls_le backend (attempts - 1) 1
    rw [infer_with_retry]
    omega
  · intro attempts j h1 hj
    exact inferAttempts_earlier_unavail backend (attempts - 1) 1 j h1 hj

theorem gpu_retry_policy_witness :
    infer_with_retry 3 (fun _ => SendResult.unavail "model loading") =
      (Except.error (GPUError.unavailable "model loading"), 3) :=
  (gpu_retry_policy (fun _ => SendResult.unavail "model loading")
    (fun _ => "model loading") "d").1 (fun _ => rfl)

/-- Claim C3 fails as stated: `_decode` sits under no try/except, and on
the empty byte sequence `cv2.imdecode` raises instead of returning no
image, so `preprocess` of the empty input propagates the exception to
the caller rather than returning the input byte-for-byte. -/
theorem preprocess_empty_raises_ctrex :
    preprocess cv2LikePrims [] =
      Except.error "cv2.error: !buf.empty() in imdecode_"
    ∧ preprocess cv2LikePrims [] ≠ Except.ok ([] : List Nat) := by
  refine ⟨rfl, fun h => ?_⟩
  have h2 : preprocess cv2LikePrims [] =
      Except.error "cv2.error: !buf.empty() in imdecode_" := rfl
  rw [h2] at h
  exact Except.noConfusion h

/-- Claim C3, amended: an exception escapes `preprocess` exactly when
the unguarded decode primitive raises (as it does on the empty byte
sequence); on every input where decode does not raise the call never
raises — it returns the input bytes byte-for-byte whenever decode
yields no image, and otherwise the encoder's output or the fallback
input bytes. -/
theorem preprocess_decode_contract {Img : Type} (p : CVPrims Img)
    (b : List Nat) :
    (p.decode b = Except.ok none → preprocess p b = Except.ok b)
    ∧ (∀ e, p.decode b = Except.error e → preprocess p b = Except.error e)
    ∧ (∀ img, p.decode b = Except.ok (some img) →
        preprocess p b = Except.ok b ∨
        ∃ out, p.encode_raw (stageRun p.resize_raw (stageRun p.clahe_raw
          (stageRun p.deskew_raw (stageRun p.crop_raw img)))) = some out ∧
          preprocess p b = Except.ok out) := by
  cases hd : p.decode b with
  | error e =>
    refine ⟨fun hc => by simp [hd] at hc, fun e' he' => ?_,
      fun img hc => by simp [hd] at hc⟩
    obtain rfl : e = e' := by simpa using he'
    simp [preprocess, hd]
  | ok o =>
    cases o with
    | none =>
      exact ⟨fun _ => by simp [preprocess, hd],
        fun e' he' => by simp [hd] at he',
        fun img hc => by simp [hd] at hc⟩
    | some img =>
      refine ⟨fun hc => by simp [hd] at hc,
        fun e' he' => by simp [hd] at he', fun img' hc => ?_⟩
      obtain rfl : img = img' := by simpa using hc
      cases he : p.encode_raw (stageRun p.resize_raw (stageRun p.clahe_raw
          (stageRun p.deskew_raw (stageRun p.crop_raw img)))) with
      | none => exact Or.inl (by simp [preprocess, hd, he])
      | some out => exact Or.inr ⟨out, rfl, by simp [preprocess, hd, he]⟩

theorem preprocess_decode_contract_witness :
    preprocess cv2LikePrims [7, 7] = Except.ok [7, 7] :=
  (preprocess_decode_contract cv2LikePrims [7, 7]).1 rfl

/-- Claim C4: for a document type with no registered prompt the
orchestrator returns zero fields, exactly one warning naming the type,
`processing_time_ms = 0`, and performs no preprocessing and no GPU
call. -/
theorem unknown_doc_type_no_call (preprocessFn : List Nat → List Nat)
    (backend : List Nat → String → Nat → SendResult) (attempts elapsedMs : Nat)
    (image_bytes : List Nat) (doc_type : String)
    (h : prompts_get doc_type = none) :
    extract_from_image preprocessFn backend attempts elapsedMs image_bytes
        doc_type =
      (⟨doc_type, [], ["No prompt defined for document type: " ++ doc_type],
        0⟩, ⟨0, 0⟩) := by
  simp [extract_from_image, h]

theorem unknown_doc_type_no_call_witness :
    extract_from_image id (fun _ _ _ => SendResult.err "e") 3 5 [1]
        "rechnung" =
      (⟨"rechnung", [],
        ["No prompt defined for document type: " ++ "rechnung"], 0⟩, ⟨0, 0⟩) :=
  unknown_doc_type_no_call id (fun _ _ _ => SendResult.err "e") 3 5 [1]
    "rechnung" rfl

theorem cropGo_dims (img : ImageDims) :
    ∀ cands, cropGo img cands = img ∨
      (100 ≤ (cropGo img cands).w ∧ 100 ≤ (cropGo img cands).h) := by
  intro cands
  induction cands with
  | nil => exact Or.inl rfl
  | cons c rest ih =>
    rw [cropGo]
    by_cases h4 : c.numPoints = 4
    · rw [if_pos h4]
      by_cases harea : c.area / ((img.h : ℚ) * (img.w : ℚ)) < 1 / 5
      · rw [if_pos harea]; exact ih
      · rw [if_neg harea]
        cases hp : perspective_transform_dims c with
        | none => exact ih
        | some d =>
          right
          rw [perspective_transform_dims] at hp
          split at hp
          · simp at hp
          · next hok =>
            simp only [Option.some.injEq] at hp
            subst hp
            push_neg at hok
            simpa using hok
    · rw [if_neg h4]; exact ih

/-- Claim C9: the document border crop never produces an output smaller
than 100 by 100 pixels — whenever a candidate quadrilateral's destination
rectangle would fall below that, the candidate is rejected, and if no
candidate is accepted the image passes through the stage unchanged. -/
theorem crop_document_min_dims (img : ImageDims) (cands : List QuadCand) :
    crop_document img cands = img ∨
      (100 ≤ (crop_document img cands).w ∧
       100 ≤ (crop_document img cands).h) :=
  cropGo_dims img ((sortAreaDesc cands).take 5)

/-- Claim C8 fails as stated: a 1100 by 800 image is within the 10%
skip tolerance of the landscape preset, so `_resize` leaves it at
1100 by 800, whose maximum dimension exceeds 1024. -/
theorem resize_dims_claim_ctrex :
    resize_dims 1100 800 = (1100, 800) ∧
      ¬ max (resize_dims 1100 800).1 (resize_dims 1100 800).2 ≤ 1024 := by
  decide

/-- Claim C8, amended: the resize stage picks landscape 1024 by 768 or
portrait 768 by 1024, skips exactly when both dimensions are within 10%
of the chosen target, and therefore bounds the maximum output dimension
by 1126 (not 1024) rather than 1024. -/
theorem resize_dims_bounds (w h : Nat) :
    max (resize_dims w h).1 (resize_dims w h).2 ≤ 1126
    ∧ (resize_dims w h = (w, h) ∨ resize_dims w h = TARGET_LANDSCAPE ∨
        resize_dims w h = TARGET_PORTRAIT)
    ∧ (resize_dims w h = (w, h) →
        (h < w → 10 * absDiff w 1024 < 1024 ∧ 10 * absDiff h 768 < 768)
        ∧ (¬ h < w → 10 * absDiff w 768 < 768 ∧ 10 * absDiff h 1024 < 1024)) := by
  unfold resize_dims TARGET_LANDSCAPE TARGET_PORTRAIT
  by_cases hl : h < w
  · simp only [if_pos hl]
    by_cases hskip :
        10 * absDiff w (1024, 768).1 < (1024, 768).1 ∧
        10 * absDiff h (1024, 768).2 < (1024, 768).2
    · rw [if_pos hskip]
      unfold absDiff at hskip ⊢
      refine ⟨by omega, Or.inl rfl, fun _ => ⟨fun _ => by omega, fun hc => absurd hl hc⟩⟩
    · rw [if_neg hskip]
      refine ⟨by omega, Or.inr (Or.inl rfl), fun heq => ?_⟩
      have hw : w = 1024 := (Prod.mk.injEq .. ▸ heq).1.symm
      have hh : h = 768 := (Prod.mk.injEq .. ▸ heq).2.symm
      subst hw
      subst hh
      unfold absDiff
      exact ⟨fun _ => by omega, fun hc => absurd hl hc⟩
  · simp only [if_neg hl]
    by_cases hskip :
        10 * absDiff w (768, 1024).1 < (768, 1024).1 ∧
        10 * absDiff h (768, 1024).2 < (768, 1024).2
    · rw [if_pos hskip]
      unfold absDiff at hskip ⊢
      refine ⟨by omega, Or.inl rfl, fun _ => ⟨fun hc => absurd hc hl, fun _ => by omega⟩⟩
    · rw [if_neg hskip]
      refine ⟨by omega, Or.inr (Or.inr rfl), fun heq => ?_⟩
      have hw : w = 768 := (Prod.mk.injEq .. ▸ heq).1.symm
      have hh : h = 1024 := (Prod.mk.injEq .. ▸ heq).2.symm
      subst hw
      subst hh
      unfold absDiff
      exact ⟨fun hc => absurd hc hl, fun _ => by omega⟩

theorem resize_dims_bounds_witness :
    10 * absDiff 1100 1024 < 1024 ∧ 10 * absDiff 800 768 < 768 :=
  ((resize_dims_bounds 1100 800).2.2 (by decide)).1 (by decide)

/-- Claim C5: `try_parse_json` first removes reasoning blocks delimited
by the think marker pair and operates only on the remainder: a reasoning
block containing a decoy object followed by a real object yields exactly
the real object, and text consisting only of a reasoning block yields
none. -/
theorem think_block_stripping :
    try_parse_json_brain ("<think>The document shows \x7b\"wrong\":\"data\"\x7d but let me extract properly.</think>\n\x7b\"first_name\":\"Anna\"\x7d".data) =
      some [("first_name".data, Json.str ("Anna".data))]
    ∧ try_parse_json_brain
        ("<think>I cannot find any fields in this image.</think>".data) =
      none :=
  ⟨rfl, rfl⟩

theorem fieldsOfParsed_eq_filterMap (doc_type : String)
    (ps : List (Str × Json)) :
    fieldsOfParsed ps doc_type = ps.filterMap (buildFieldRule doc_type) := by
  have key : ∀ (l : List (Str × Json)) (acc : List ExtractionField),
      List.foldl (fun fields kv =>
        match kv.2 with
        | Json.str s =>
          if pyStrip s = [] then fields
          else
            fields ++ [⟨String.mk kv.1, String.mk (pyStrip s),
              if String.mk kv.1 ∈ expected_keys_get doc_type then
                BOOSTED_CONFIDENCE
              else BASE_CONFIDENCE, doc_type⟩]
        | _ => fields) acc l =
      acc ++ l.filterMap (buildFieldRule doc_type) := by
    intro l
    induction l with
    | nil => intro acc; simp
    | cons kv rest ih =>
      intro acc
      obtain ⟨k, v⟩ := kv
      rw [List.foldl_cons, List.filterMap_cons]
      cases v with
      | str s =>
        by_cases hs : pyStrip s = []
        · simp only [buildFieldRule, hs, ite_true, Option.elim]
          simpa using ih acc
        · simp only [buildFieldRule, if_neg hs]
          rw [ih]
          simp
      | null => simpa [buildFieldRule] using ih acc
      | bool b => simpa [buildFieldRule] using ih acc
      | num q => simpa [buildFieldRule] using ih acc
      | arr es => simpa [buildFieldRule] using ih acc
      | obj os => simpa [buildFieldRule] using ih acc
  simpa [fieldsOfParsed] using key ps []

/-- Claim C6: the field builder drops pairs whose value is not a string
or trims to empty, trims kept values, assigns confidence 0.85 to
expected keys and 0.75 otherwise, tags the source with the document
type, and preserves the parsed key order; on the sample object with a
blank string and a number for a type expecting `first_name` it yields
exactly one field. -/
theorem build_fields_rule :
    (∀ (ps : List (Str × Json)) (doc_type : String),
      fieldsOfParsed ps doc_type = ps.filterMap (buildFieldRule doc_type))
    ∧ parse_json_from_response
        ("\x7b\"first_name\":\"Max\",\"last_name\":\"\",\"count\":42\x7d".data)
        "personalausweis" =
      [⟨"first_name", "Max", BOOSTED_CONFIDENCE, "personalausweis"⟩] :=
  ⟨fun ps doc_type => fieldsOfParsed_eq_filterMap doc_type ps, rfl⟩

/-- Claim C7 fails as stated: an input whose parseable content is a JSON
array can still produce an object — on a one-element array wrapping an
object, the direct parse rejects the array but the brace-substring
fallback extracts the inner object, so the parser does not return
none. -/
theorem array_object_fallback_ctrex :
    (json_loads ("[\x7b\"a\":1\x7d]".data)).map Json.isArr = some true
    ∧ (try_parse_json_brain ("[\x7b\"a\":1\x7d]".data)).map
        (List.map (fun p => String.mk p.1)) = some ["a"]
    ∧ try_parse_json_brain ("[\x7b\"a\":1\x7d]".data) ≠ none := by
  refine ⟨rfl, rfl, fun h => ?_⟩
  have h2 : (try_parse_json_brain ("[\x7b\"a\":1\x7d]".data)).map
      (List.map (fun p => String.mk p.1)) = some ["a"] := rfl
  rw [h] at h2
  simp at h2

/-- Claim C7, amended: the direct-parse strategy accepts only objects —
syntactically valid JSON arrays and scalars are rejected by it, and when
no later strategy finds a brace-delimited object (as for the inputs
`[1,2,3]` and `123`) the parser returns none; an array that contains an
object may however still yield that object via the brace-substring
fallback. -/
theorem nonobject_parse_rejected :
    try_parse_json_brain ("[1,2,3]".data) = none
    ∧ (json_loads ("[1,2,3]".data)).isSome = true
    ∧ try_parse_json_brain ("123".data) = none
    ∧ (json_loads ("123".data)).isSome = true :=
  ⟨rfl, rfl, rfl, rfl⟩

/-- Claim C1: the orchestrator's response has non-empty warnings exactly
when its fields are empty (unknown type, unavailable backend, backend
error, or zero parseable fields); every such failure carries exactly one
warning, and a success with at least one field has no warnings. -/
theorem extract_warnings_iff (preprocessFn : List Nat → List Nat)
    (backend : List Nat → String → Nat → SendResult)
    (attempts elapsedMs : Nat) (image_bytes : List Nat) (doc_type : String) :
    ((extract_from_image preprocessFn backend attempts elapsedMs image_bytes
        doc_type).1.fields = [] ↔
      (extract_from_image preprocessFn backend attempts elapsedMs image_bytes
        doc_type).1.warnings ≠ [])
    ∧ ((extract_from_image preprocessFn backend attempts elapsedMs image_bytes
        doc_type).1.fields = [] →
      (extract_from_image preprocessFn backend attempts elapsedMs image_bytes
        doc_type).1.warnings.length = 1)
    ∧ ((extract_from_image preprocessFn backend attempts elapsedMs image_bytes
        doc_type).1.fields ≠ [] →
      (extract_from_image preprocessFn backend attempts elapsedMs image_bytes
        doc_type).1.warnings = []) := by
  cases hp : prompts_get doc_type with
  | none => simp [extract_from_image, hp]
  | some prompt =>
    rcases hr : infer_with_retry attempts
        (backend (preprocessFn image_bytes) prompt) with ⟨res, calls⟩
    cases res with
    | error e =>
      cases e with
      | unavailable m => simp [extract_from_image, hp, hr]
      | backendError m => simp [extract_from_image, hp, hr]
    | ok p =>
      obtain ⟨raw, ms⟩ := p
      by_cases hf : parse_json_from_response raw doc_type = []
      · simp [extract_from_image, hp, hr, hf]
      · simp [extract_from_image, hp, hr, hf]

theorem extract_warnings_iff_witness :
    (extract_from_image id (fun _ _ _ => SendResult.err "boom") 3 5 [1]
      "reisepass").1.warnings.length = 1 :=
  (extract_warnings_iff id (fun _ _ _ => SendResult.err "boom") 3 5 [1]
    "reisepass").2.1 rfl

theorem isPrefixOf_append_of_ws (pat : Str)
    (hp : ∀ c ∈ pat, isSpacePy c = false) (v : Str)
    (hv : ∀ c ∈ v, isSpacePy c = true) :
    ∀ x : Str, pat.isPrefixOf (x ++ v) = pat.isPrefixOf x := by
  induction pat with
  | nil => intro x; cases x <;> cases v <;> simp [List.isPrefixOf]
  | cons p ps ih =>
    intro x
    cases x with
    | nil =>
      rw [List.nil_append]
      cases v with
      | nil => rfl
      | cons q v' =>
        have hpq : (p == q) = false := by
          refine beq_eq_false_iff_ne.mpr fun he => ?_
          have h1 := hp p (by simp)
          have h2 := hv q (by simp)
          rw [he, h2] at h1
          exact Bool.true_eq_false.mp h1
        simp [List.isPrefixOf, hpq]
    | cons a x' =>
      rw [List.cons_append, List.isPrefixOf, List.isPrefixOf,
        ih (fun c hc => hp c (List.mem_cons_of_mem p hc)) x']

theorem splitFirst_allws (pat : Str) (hne : pat ≠ [])
    (hp : ∀ c ∈ pat, isSpacePy c = false) (v : Str)
    (hv : ∀ c ∈ v, isSpacePy c = true) : splitFirst pat v = none := by
  induction v with
  | nil =>
    cases pat with
    | nil => exact absurd rfl hne
    | cons p ps => simp [splitFirst, List.isPrefixOf]
  | cons q v' ih =>
    have hpre : pat.isPrefixOf (q :: v') = false := by
      have := isPrefixOf_append_of_ws pat hp (q :: v') hv []
      rw [List.nil_append] at this
      rw [this]
      cases pat with
      | nil => exact absurd rfl hne
      | cons p ps => simp [List.isPrefixOf]
    rw [splitFirst, hpre]
    simp only [Bool.false_eq_true, if_false]
    rw [ih (fun c hc => hv c (List.mem_cons_of_mem q hc))]
    rfl

theorem splitFirst_append_ws (pat : Str) (hne : pat ≠ [])
    (hp : ∀ c ∈ pat, isSpacePy c = false) (v : Str)
    (hv : ∀ c ∈ v, isSpacePy c = true) :
    ∀ x : Str, splitFirst pat (x ++ v) =
      (splitFirst pat x).map (fun p => (p.1, p.2 ++ v)) := by
  intro x
  induction x with
  | nil =>
    rw [List.nil_append, splitFirst_allws pat hne hp v hv]
    cases pat with
    | nil => exact absurd rfl hne
    | cons p ps => simp [splitFirst, List.isPrefixOf]
  | cons a x' ih =>
    rw [List.cons_append]
    by_cases hpre : pat.isPrefixOf (a :: x')
    · have hpre2 : pat.isPrefixOf (a :: (x' ++ v)) = true := by
        have := isPrefixOf_append_of_ws pat hp v hv (a :: x')
        rw [List.cons_append] at this
        rw [this, hpre]
      have hlen : pat.length ≤ (a :: x').length :=
        (List.isPrefixOf_iff_prefix.mp hpre).length_le
      rw [splitFirst, if_pos hpre2, splitFirst, if_pos hpre]
      rw [show a :: (x' ++ v) = (a :: x') ++ v from rfl,
        List.drop_append_of_le_length hlen]
      rfl
    · have hpre2 : pat.isPrefixOf (a :: (x' ++ v)) = false := by
        have := isPrefixOf_append_of_ws pat hp v hv (a :: x')
        rw [List.cons_append] at this
        rw [this]
        exact Bool.not_eq_true _ ▸ (by simpa using hpre)
      rw [splitFirst, hpre2, splitFirst,
        if_neg (by simp [hpre] : ¬ pat.isPrefixOf (a :: x') = true)]
      simp only [Bool.false_eq_true, if_false, ih]
      cases splitFirst pat x' <;> simp

theorem matchFenceAt_append_ws (v : Str)
    (hv : ∀ c ∈ v, isSpacePy c = true) (x : Str) :
    matchFenceAt (x ++ v) = matchFenceAt x := by
  have hfp : ∀ c ∈ fencePat, isSpacePy c = false := by decide
  have hjt : ∀ c ∈ jsonTag, isSpacePy c = false := by decide
  have hfne : fencePat ≠ [] := by decide
  by_cases h3 : fencePat.isPrefixOf x
  · have h3v : fencePat.isPrefixOf (x ++ v) = true := by
      rw [isPrefixOf_append_of_ws fencePat hfp v hv x, h3]
    have hlen3 : 3 ≤ x.length := by
      have := (List.isPrefixOf_iff_prefix.mp h3).length_le
      simpa [fencePat] using this
    rw [matchFenceAt, matchFenceAt, if_pos h3v, if_pos h3]
    simp only [List.drop_append_of_le_length hlen3]
    by_cases h4 : jsonTag.isPrefixOf (x.drop 3)
    · have h4v : jsonTag.isPrefixOf (x.drop 3 ++ v) = true := by
        rw [isPrefixOf_append_of_ws jsonTag hjt v hv (x.drop 3), h4]
      have hlen4 : 4 ≤ (x.drop 3).length := by
        have := (List.isPrefixOf_iff_prefix.mp h4).length_le
        simpa [jsonTag] using this
      rw [if_pos h4v, if_pos h4, List.drop_append_of_le_length hlen4,
        List.dropWhile_append]
      by_cases hde : (((x.drop 3).drop 4).dropWhile isSpacePy).isEmpty
      · rw [if_pos hde, List.dropWhile_eq_nil_iff.mpr hv,
          List.isEmpty_iff.mp hde]
      · rw [if_neg hde, splitFirst_append_ws fencePat hfne hfp v hv]
        cases splitFirst fencePat (((x.drop 3).drop 4).dropWhile isSpacePy) with
        | none => rfl
        | some p => obtain ⟨a, b⟩ := p; rfl
    · have h4x : jsonTag.isPrefixOf (x.drop 3) = false := by
        rw [← Bool.not_eq_true]; exact h4
      have h4v : jsonTag.isPrefixOf (x.drop 3 ++ v) = false := by
        rw [isPrefixOf_append_of_ws jsonTag hjt v hv (x.drop 3), h4x]
      rw [h4x, h4v]
      simp only [Bool.false_eq_true, if_false]
      rw [List.dropWhile_append]
      by_cases hde : ((x.drop 3).dropWhile isSpacePy).isEmpty
      · rw [if_pos hde, List.dropWhile_eq_nil_iff.mpr hv,
          List.isEmpty_iff.mp hde]
      · rw [if_neg hde, splitFirst_append_ws fencePat hfne hfp v hv]
        cases splitFirst fencePat ((x.drop 3).dropWhile isSpacePy) with
        | none => rfl
        | some p => obtain ⟨a, b⟩ := p; rfl
  · have h3x : fencePat.isPrefixOf x = false := by
      rw [← Bool.not_eq_true]; exact h3
    have h3v : fencePat.isPrefixOf (x ++ v) = false := by
      rw [isPrefixOf_append_of_ws fencePat hfp v hv x, h3x]
    rw [matchFenceAt, matchFenceAt, h3x, h3v]
    simp

theorem ws_backtick_ne (c : Char) (h : isSpacePy c = true) :
    (backtickChar == c) = false := by
  simp only [isSpacePy, Bool.or_eq_true, decide_eq_true_eq] at h
  rcases h with ((((rfl | rfl) | rfl) | rfl) | rfl) | rfl <;> decide

theorem matchFenceAt_ws_head (c : Char) (s : Str)
    (h : isSpacePy c = true) : matchFenceAt (c :: s) = none := by
  have hpre : fencePat.isPrefixOf (c :: s) = false := by
    simp [fencePat, List.isPrefixOf, ws_backtick_ne c h]
  rw [matchFenceAt, hpre]
  simp

theorem searchFence_allws (v : Str)
    (hv : ∀ c ∈ v, isSpacePy c = true) : searchFence v = none := by
  induction v with
  | nil => rfl
  | cons q v' ih =>
    rw [searchFence, matchFenceAt_ws_head q v' (hv q (by simp))]
    exact ih (fun c hc => hv c (List.mem_cons_of_mem q hc))

theorem searchFence_append_ws (v : Str)
    (hv : ∀ c ∈ v, isSpacePy c = true) :
    ∀ x : Str, searchFence (x ++ v) = searchFence x := by
  intro x
  induction x with
  | nil => simpa using searchFence_allws v hv
  | cons a x' ih =>
    rw [List.cons_append, searchFence, searchFence,
      show a :: (x' ++ v) = (a :: x') ++ v from rfl,
      matchFenceAt_append_ws v hv (a :: x')]
    cases matchFenceAt (a :: x') with
    | some g => rfl
    | none => exact ih

theorem searchFence_dropWhile (s : Str) :
    searchFence (s.dropWhile isSpacePy) = searchFence s := by
  induction s with
  | nil => rfl
  | cons c t ih =>
    by_cases hc : isSpacePy c = true
    · rw [List.dropWhile_cons_of_pos hc, ih, searchFence,
        matchFenceAt_ws_head c t hc]
    · rw [List.dropWhile_cons_of_neg (by simpa using hc)]

theorem pyStrip_decomp (s : Str) :
    ∃ v : Str, (∀ c ∈ v, isSpacePy c = true) ∧
      s.dropWhile isSpacePy = pyStrip s ++ v := by
  refine ⟨((s.dropWhile isSpacePy).reverse.takeWhile isSpacePy).reverse,
    ?_, ?_⟩
  · intro c hc
    exact List.mem_takeWhile_imp (List.mem_reverse.mp hc)
  · have h0 := List.takeWhile_append_dropWhile isSpacePy
      (s.dropWhile isSpacePy).reverse
    calc s.dropWhile isSpacePy
        = (s.dropWhile isSpacePy).reverse.reverse := by
          rw [List.reverse_reverse]
      _ = ((s.dropWhile isSpacePy).reverse.takeWhile isSpacePy ++
            (s.dropWhile isSpacePy).reverse.dropWhile isSpacePy).reverse := by
          rw [h0]
      _ = pyStrip s ++
            ((s.dropWhile isSpacePy).reverse.takeWhile isSpacePy).reverse := by
          rw [List.reverse_append]
          rfl

theorem searchFence_pyStrip (s : Str) :
    searchFence (pyStrip s) = searchFence s := by
  obtain ⟨v, hv, hd⟩ := pyStrip_decomp s
  calc searchFence (pyStrip s)
      = searchFence (pyStrip s ++ v) := (searchFence_append_ws v hv _).symm
    _ = searchFence (s.dropWhile isSpacePy) := by rw [← hd]
    _ = searchFence s := searchFence_dropWhile s

theorem ws_ne_lbrace (c : Char) (h : isSpacePy c = true) : ¬ c = '\x7b' :=
  fun he => absurd (he ▸ h) (by decide)

theorem ws_nonBrace (c : Char) (h : isSpacePy c = true) :
    nonBrace c = true := by
  simp only [isSpacePy, Bool.or_eq_true, decide_eq_true_eq] at h
  rcases h with ((((rfl | rfl) | rfl) | rfl) | rfl) | rfl <;> decide

theorem searchBrace_allws (v : Str)
    (hv : ∀ c ∈ v, isSpacePy c = true) : searchBrace v = none := by
  induction v with
  | nil => rfl
  | cons q v' ih =>
    rw [searchBrace, if_neg (ws_ne_lbrace q (hv q (by simp)))]
    exact ih (fun c hc => hv c (List.mem_cons_of_mem q hc))

theorem searchBrace_append_ws (v : Str)
    (hv : ∀ c ∈ v, isSpacePy c = true) :
    ∀ x : Str, searchBrace (x ++ v) = searchBrace x := by
  intro x
  induction x with
  | nil => simpa using searchBrace_allws v hv
  | cons a x' ih =>
    rw [List.cons_append, searchBrace, searchBrace]
    by_cases ha : a = '\x7b'
    · rw [if_pos ha, if_pos ha]
      by_cases hds : x'.dropWhile nonBrace = []
      · have hall : ∀ c ∈ x', nonBrace c = true :=
          List.dropWhile_eq_nil_iff.mp hds
        have hallv : (x' ++ v).dropWhile nonBrace = [] := by
          refine List.dropWhile_eq_nil_iff.mpr fun c hc => ?_
          rcases List.mem_append.mp hc with h | h
          · exact hall c h
          · exact ws_nonBrace c (hv c h)
        rw [hallv, hds]
        exact ih
      · obtain ⟨d, r, hdr⟩ : ∃ d r, x'.dropWhile nonBrace = d :: r := by
          cases hx : x'.dropWhile nonBrace with
          | nil => exact absurd hx hds
          | cons d r => exact ⟨d, r, rfl⟩
        have happ : (x' ++ v).dropWhile nonBrace = d :: (r ++ v) := by
          rw [List.dropWhile_append, if_neg (by simp [hdr]), hdr]
          rfl
        rw [happ, hdr]
        simp only
        by_cases hd : d = '\x7d'
        · rw [if_pos hd, if_pos hd]
          have htw : (x' ++ v).takeWhile nonBrace = x'.takeWhile nonBrace := by
            rw [List.takeWhile_append, if_neg ?hlen]
            case hlen =>
              intro hlen
              have hsum := congrArg List.length
                (List.takeWhile_append_dropWhile nonBrace x')
              rw [List.length_append, hdr] at hsum
              simp only [List.length_cons] at hsum
              omega
          rw [htw]
        · rw [if_neg hd, if_neg hd]
          exact ih
    · rw [if_neg ha, if_neg ha]
      exact ih

theorem searchBrace_dropWhile (s : Str) :
    searchBrace (s.dropWhile isSpacePy) = searchBrace s := by
  induction s with
  | nil => rfl
  | cons c t ih =>
    by_cases hc : isSpacePy c = true
    · rw [List.dropWhile_cons_of_pos hc, ih, searchBrace,
        if_neg (ws_ne_lbrace c hc)]
    · rw [List.dropWhile_cons_of_neg (by simpa using hc)]

theorem searchBrace_pyStrip (s : Str) :
    searchBrace (pyStrip s) = searchBrace s := by
  obtain ⟨v, hv, hd⟩ := pyStrip_decomp s
  calc searchBrace (pyStrip s)
      = searchBrace (pyStrip s ++ v) := (searchBrace_append_ws v hv _).symm
    _ = searchBrace (s.dropWhile isSpacePy) := by rw [← hd]
    _ = searchBrace s := searchBrace_dropWhile s

/-- Claim C10: on every input containing no reasoning-block opening
marker, the vision-brain and vision-service `try_parse_json` agree — the
two strategy chains are equivalent on such inputs, the only differences
being the think-block stripping and which text the fence and brace
searches scan. -/
theorem parser_chain_equiv (raw : Str)
    (h : ∀ a b : Str, raw ≠ a ++ thinkOpen ++ b) :
    try_parse_json_brain raw = try_parse_json_service raw := by
  have hsf : splitFirst thinkOpen raw = none :=
    splitFirst_eq_none thinkOpen raw h
  have hst : strip_think raw = raw := strip_think_eq_self raw hsf
  cases raw with
  | nil => rfl
  | cons c t =>
    rw [try_parse_json_brain, if_neg (by simp : ¬ (c :: t : Str) = []), hst]
    simp only [try_parse_json_service, searchFence_pyStrip,
      searchBrace_pyStrip]

theorem parser_chain_equiv_witness :
    try_parse_json_brain ("hello".data) =
      try_parse_json_service ("hello".data) :=
  parser_chain_equiv ("hello".data) (fun a b hab => by
    have hlen := congrArg List.length hab
    rw [List.length_append, List.length_append] at hlen
    have h7 : thinkOpen.length = 7 := rfl
    have h5 : ("hello".data).length = 5 := rfl
    rw [h7, h5] at hlen
    omega)
